import Mathlib

/-!
# Verification of the PrivacyThink RAG core

A shallow embedding, in Lean 4, of the retrieval-augmented-generation core of
the repository (document chunker, page tagging, cosine-similarity vector
search, embedding worker pool, storage deletion, and the chat/answer error
path), together with theorems settling the specification's claims about it.

Modelling conventions:
* JavaScript strings are modelled as `List Char`; JavaScript numbers used as
  vector components are modelled as `ℚ` (exact arithmetic; the claims under
  study concern control flow, ordering, filtering and the zero-denominator
  case, none of which depend on rounding).
* The value produced by the source's similarity functions is
  `dot / (Math.sqrt normA * Math.sqrt normB)`, which is irrational in
  general and is NaN when the denominator is zero (the numerator is then
  also zero).  It is represented exactly by `SimVal`: `SimVal.score n d`
  denotes the real number `n / Real.sqrt d` (all uses have `0 < d`), and
  `SimVal.nan` denotes IEEE NaN.  Comparison against a rational threshold
  is `SimVal.geq`, and `simVal_geq_iff_real` proves that `SimVal.geq`
  agrees with the real-number comparison, so the representation is faithful.
* Fallible collaborators (the embedding and generation models) are modelled
  as `Except String`-valued parameters; a thrown JavaScript error is
  `Except.error`.
-/

/-- The character class of JavaScript's `\s` and `String.prototype.trim`,
restricted to the ASCII whitespace characters that can occur in extracted
text (Unicode space separators are not modelled). -/
def jsIsSpace (c : Char) : Bool :=
  c = ' ' || c = '\n' || c = '\t' || c = '\r' || c = '\x0b' || c = '\x0c'

/-- JavaScript `String.prototype.trim`: strip whitespace from both ends. -/
def jsTrim (s : List Char) : List Char :=
  ((s.dropWhile jsIsSpace).reverse.dropWhile jsIsSpace).reverse

/-- JavaScript `String.prototype.slice(start, stop)` for `0 ≤ start ≤ stop`. -/
def jsSlice (s : List Char) (start stop : Nat) : List Char :=
  (s.take stop).drop start

/-- JavaScript `String.prototype.indexOf(sub)`: position of the first
occurrence of `sub`, `none` when there is no occurrence (the source's `-1`;
the call sites modelled here look up strings that are known to occur). -/
def jsIndexOf (s sub : List Char) : Option Nat :=
  go s 0
where
  go : List Char → Nat → Option Nat
    | [], i => if sub = [] then some i else none
    | c :: rest, i =>
      if sub.isPrefixOf (c :: rest) then some i else go rest (i + 1)

theorem length_dropWhile_le {α : Type} (p : α → Bool) (l : List α) :
    (l.dropWhile p).length ≤ l.length := by
  induction l with
  | nil => simp
  | cons a l ih =>
      by_cases h : p a
      · rw [List.dropWhile_cons_of_pos h]
        simpa using Nat.le_succ_of_le ih
      · rw [List.dropWhile_cons_of_neg (by simpa using h)]

theorem jsTrim_length_le (s : List Char) : (jsTrim s).length ≤ s.length := by
  unfold jsTrim
  calc ((s.dropWhile jsIsSpace).reverse.dropWhile jsIsSpace).reverse.length
      = ((s.dropWhile jsIsSpace).reverse.dropWhile jsIsSpace).length := by
        simp
    _ ≤ (s.dropWhile jsIsSpace).reverse.length := length_dropWhile_le _ _
    _ = (s.dropWhile jsIsSpace).length := by simp
    _ ≤ s.length := length_dropWhile_le _ _

theorem jsSlice_length_le (s : List Char) (start stop : Nat) :
    (jsSlice s start stop).length ≤ stop - start := by
  unfold jsSlice
  have h := List.length_take stop s
  simp only [List.length_drop, h]
  omega

/-! ## Vector math

Source: `PrivacyStorageService.cosineSimilarity` and
`PrivacyRAGService.calculateSimilarity` (identical bodies):

```
if (a.length !== b.length) return 0;
let dotProduct = 0; let normA = 0; let normB = 0;
for (let i = 0; i < a.length; i++) {
  dotProduct += a[i] * b[i]; normA += a[i] * a[i]; normB += b[i] * b[i];
}
return dotProduct / (Math.sqrt(normA) * Math.sqrt(normB));
```

The loop's three accumulators are modelled as three folds over the zipped
lists (the loop only runs when the lengths are equal). -/

/-- The `dotProduct` accumulator of the similarity loop. -/
def dotProduct (a b : List ℚ) : ℚ :=
  ((a.zip b).map fun p => p.1 * p.2).sum

/-- The `normA` / `normB` accumulators of the similarity loop (sum of
squares; the source's variable holds the squared Euclidean norm). -/
def sumSquares (a : List ℚ) : ℚ :=
  (a.map fun x => x * x).sum

/-- A JavaScript number produced by the similarity functions, represented
exactly: `score n d` denotes `n / Real.sqrt d` (every use has `0 < d`) and
`nan` denotes IEEE NaN, the result of the division `0 / 0`. -/
inductive SimVal where
  | nan : SimVal
  | score : ℚ → ℚ → SimVal
deriving DecidableEq, Repr

/-- Comparison: `(SimVal.score n d).geq t` is the JavaScript comparison
`n / sqrt d >= t` for `0 < d`, expressed by sign analysis and squaring so
that it is decidable over `ℚ`; NaN compares false against everything, as
in JavaScript.  Faithfulness to the real-number comparison is proved in
`simVal_geq_iff_real`. -/
def SimVal.geq : SimVal → ℚ → Bool
  | .nan, _ => false
  | .score n d, t =>
      if 0 ≤ t then decide (0 ≤ n) && decide (t * t * d ≤ n * n)
      else decide (0 ≤ n) || decide (n * n ≤ t * t * d)

/-- Descending-order comparator on similarity values: `gele s₁ s₂` means
`s₁` sorts no later than `s₂` under the source's
`sort((a, b) => b.similarity - a.similarity)`, i.e. `s₁ ≥ s₂` as real
numbers (`n₁ / sqrt d₁ ≥ n₂ / sqrt d₂`, cross-multiplied and squared with
sign analysis).  The NaN rows are arbitrary: NaN never reaches the sort
because the threshold filter already rejected it. -/
def SimVal.gele : SimVal → SimVal → Bool
  | .nan, _ => true
  | _, .nan => false
  | .score n₁ d₁, .score n₂ d₂ =>
      if 0 ≤ n₁ then decide (n₂ < 0) || decide (n₂ * n₂ * d₁ ≤ n₁ * n₁ * d₂)
      else decide (n₂ < 0) && decide (n₁ * n₁ * d₂ ≤ n₂ * n₂ * d₁)

namespace PrivacyStorageService

/-- Model of `PrivacyStorageService.cosineSimilarity`.  A length mismatch returns the
plain number `0` (represented `score 0 1`, i.e. `0 / sqrt 1 = 0`); otherwise
the result is `dot / (sqrt normA * sqrt normB)`: NaN when the denominator is
zero (then `dot = 0` as well, giving `0 / 0`), else the finite ratio
represented with denominator-squared `normA * normB`
(`sqrt normA * sqrt normB = sqrt (normA * normB)` for nonnegative norms). -/
def cosineSimilarity (a b : List ℚ) : SimVal :=
  if a.length ≠ b.length then .score 0 1
  else
    let dot := dotProduct a b
    let normA := sumSquares a
    let normB := sumSquares b
    if normA * normB = 0 then .nan
    else .score dot (normA * normB)

end PrivacyStorageService

namespace PrivacyRAGService

/-- Model of `PrivacyRAGService.calculateSimilarity` — textually the same algorithm
as `PrivacyStorageService.cosineSimilarity`. -/
def calculateSimilarity (vec1 vec2 : List ℚ) : SimVal :=
  if vec1.length ≠ vec2.length then .score 0 1
  else
    let dotProd := dotProduct vec1 vec2
    let norm1 := sumSquares vec1
    let norm2 := sumSquares vec2
    if norm1 * norm2 = 0 then .nan
    else .score dotProd (norm1 * norm2)

theorem calculateSimilarity_eq_cosineSimilarity (a b : List ℚ) :
    calculateSimilarity a b = PrivacyStorageService.cosineSimilarity a b := rfl

end PrivacyRAGService

/-! ### Faithfulness of the exact similarity representation -/

theorem simVal_geq_iff_real (n d t : ℚ) (hd : 0 < d) :
    (SimVal.score n d).geq t = true ↔ (t : ℝ) ≤ (n : ℝ) / Real.sqrt (d : ℝ) := by
  have hdR : (0 : ℝ) < (d : ℝ) := by exact_mod_cast hd
  have hs : (0 : ℝ) < Real.sqrt (d : ℝ) := Real.sqrt_pos.mpr hdR
  have key : ((t : ℝ) ≤ (n : ℝ) / Real.sqrt (d : ℝ)) ↔
      (t : ℝ) * Real.sqrt (d : ℝ) ≤ (n : ℝ) := by
    rw [le_div_iff₀ hs]
  unfold SimVal.geq
  rw [key]
  by_cases ht : (0 : ℚ) ≤ t
  · simp only [if_pos ht, Bool.and_eq_true, decide_eq_true_eq]
    have htR : (0 : ℝ) ≤ (t : ℝ) := by exact_mod_cast ht
    constructor
    · rintro ⟨hn, hsq⟩
      have hnR : (0 : ℝ) ≤ (n : ℝ) := by exact_mod_cast hn
      have hsqR : (t : ℝ) * (t : ℝ) * (d : ℝ) ≤ (n : ℝ) * (n : ℝ) := by
        exact_mod_cast hsq
      have h1 : ((t : ℝ) * Real.sqrt (d : ℝ)) * ((t : ℝ) * Real.sqrt (d : ℝ))
          = (t : ℝ) * (t : ℝ) * (d : ℝ) := by
        have := Real.mul_self_sqrt hdR.le
        ring_nf
        nlinarith [Real.mul_self_sqrt hdR.le]
      nlinarith [Real.sqrt_nonneg (d : ℝ), Real.mul_self_sqrt hdR.le]
    · intro h
      have hnR : (0 : ℝ) ≤ (n : ℝ) :=
        le_trans (mul_nonneg htR hs.le) h
      have hn : (0 : ℚ) ≤ n := by exact_mod_cast hnR
      refine ⟨hn, ?_⟩
      have : (t : ℝ) * (t : ℝ) * (d : ℝ) ≤ (n : ℝ) * (n : ℝ) := by
        nlinarith [Real.mul_self_sqrt hdR.le, mul_nonneg htR hs.le]
      exact_mod_cast this
  · simp only [if_neg ht, Bool.or_eq_true, decide_eq_true_eq]
    push_neg at ht
    have htR : (t : ℝ) < 0 := by exact_mod_cast ht
    constructor
    · rintro (hn | hsq)
      · have hnR : (0 : ℝ) ≤ (n : ℝ) := by exact_mod_cast hn
        nlinarith [mul_pos (neg_pos.mpr htR) hs]
      · have hsqR : (n : ℝ) * (n : ℝ) ≤ (t : ℝ) * (t : ℝ) * (d : ℝ) := by
          exact_mod_cast hsq
        have h1 : Real.sqrt ((n : ℝ) ^ 2) ≤ Real.sqrt ((t : ℝ) ^ 2 * (d : ℝ)) :=
          Real.sqrt_le_sqrt (by nlinarith)
        rw [Real.sqrt_sq_eq_abs, Real.sqrt_mul (sq_nonneg _),
          Real.sqrt_sq_eq_abs] at h1
        calc (t : ℝ) * Real.sqrt (d : ℝ)
            = -(|(t : ℝ)| * Real.sqrt (d : ℝ)) := by rw [abs_of_neg htR]; ring
          _ ≤ -|(n : ℝ)| := by linarith
          _ ≤ (n : ℝ) := neg_abs_le _
    · intro h
      by_cases hn : (0 : ℚ) ≤ n
      · exact Or.inl hn
      · push_neg at hn
        have hnR : (n : ℝ) < 0 := by exact_mod_cast hn
        right
        have : (n : ℝ) * (n : ℝ) ≤ (t : ℝ) * (t : ℝ) * (d : ℝ) := by
          nlinarith [Real.mul_self_sqrt hdR.le, hs]
        exact_mod_cast this

/-- A sum of squares is nonnegative. -/
theorem sumSquares_nonneg (a : List ℚ) : 0 ≤ sumSquares a := by
  unfold sumSquares
  apply List.sum_nonneg
  intro x hx
  obtain ⟨y, _, hy⟩ := List.mem_map.mp hx
  rw [← hy]
  exact mul_self_nonneg y

/-- Every finite similarity the source computes has a positive
denominator-squared, so `simVal_geq_iff_real` applies to it. -/
theorem cosineSimilarity_score_den_pos (a b : List ℚ) (n d : ℚ)
    (h : PrivacyStorageService.cosineSimilarity a b = SimVal.score n d) :
    0 < d := by
  unfold PrivacyStorageService.cosineSimilarity at h
  by_cases hlen : a.length ≠ b.length
  · rw [if_pos hlen] at h
    cases h
    exact one_pos
  · rw [if_neg hlen] at h
    simp only at h
    by_cases hz : sumSquares a * sumSquares b = 0
    · rw [if_pos hz] at h
      cases h
    · rw [if_neg hz] at h
      cases h
      exact lt_of_le_of_ne
        (mul_nonneg (sumSquares_nonneg a) (sumSquares_nonneg b))
        (Ne.symm hz)

/-- Faithfulness of the descending sort comparator: for positive
denominator-squares, `gele` agrees with the real-number comparison
`n₁ / sqrt d₁ ≥ n₂ / sqrt d₂`. -/
theorem simVal_gele_iff_real (n₁ d₁ n₂ d₂ : ℚ) (h₁ : 0 < d₁)
    (h₂ : 0 < d₂) :
    SimVal.gele (SimVal.score n₁ d₁) (SimVal.score n₂ d₂) = true ↔
      (n₂ : ℝ) / Real.sqrt (d₂ : ℝ) ≤ (n₁ : ℝ) / Real.sqrt (d₁ : ℝ) := by
  have h₁R : (0 : ℝ) < (d₁ : ℝ) := by exact_mod_cast h₁
  have h₂R : (0 : ℝ) < (d₂ : ℝ) := by exact_mod_cast h₂
  have hs₁ : (0 : ℝ) < Real.sqrt (d₁ : ℝ) := Real.sqrt_pos.mpr h₁R
  have hs₂ : (0 : ℝ) < Real.sqrt (d₂ : ℝ) := Real.sqrt_pos.mpr h₂R
  have hsq₁ := Real.mul_self_sqrt h₁R.le
  have hsq₂ := Real.mul_self_sqrt h₂R.le
  have key : ((n₂ : ℝ) / Real.sqrt (d₂ : ℝ) ≤
      (n₁ : ℝ) / Real.sqrt (d₁ : ℝ)) ↔
      (n₂ : ℝ) * Real.sqrt (d₁ : ℝ) ≤ (n₁ : ℝ) * Real.sqrt (d₂ : ℝ) :=
    div_le_div_iff₀ hs₂ hs₁
  have habs₁ : Real.sqrt ((n₂ : ℝ) ^ 2 * (d₁ : ℝ)) =
      |(n₂ : ℝ)| * Real.sqrt (d₁ : ℝ) := by
    rw [Real.sqrt_mul (sq_nonneg _), Real.sqrt_sq_eq_abs]
  have habs₂ : Real.sqrt ((n₁ : ℝ) ^ 2 * (d₂ : ℝ)) =
      |(n₁ : ℝ)| * Real.sqrt (d₂ : ℝ) := by
    rw [Real.sqrt_mul (sq_nonneg _), Real.sqrt_sq_eq_abs]
  show (if 0 ≤ n₁ then decide (n₂ < 0) || decide (n₂ * n₂ * d₁ ≤ n₁ * n₁ * d₂)
    else decide (n₂ < 0) && decide (n₁ * n₁ * d₂ ≤ n₂ * n₂ * d₁)) = true ↔ _
  rw [key]
  by_cases hn₁ : (0 : ℚ) ≤ n₁
  · have hn₁R : (0 : ℝ) ≤ (n₁ : ℝ) := by exact_mod_cast hn₁
    simp only [if_pos hn₁, Bool.or_eq_true, decide_eq_true_eq]
    constructor
    · rintro (hn₂ | hsq)
      · have hn₂R : (n₂ : ℝ) < 0 := by exact_mod_cast hn₂
        nlinarith [mul_nonneg hn₁R hs₂.le, mul_pos (neg_pos.mpr hn₂R) hs₁]
      · have hsqR : (n₂ : ℝ) * (n₂ : ℝ) * (d₁ : ℝ) ≤
            (n₁ : ℝ) * (n₁ : ℝ) * (d₂ : ℝ) := by exact_mod_cast hsq
        have hmono : Real.sqrt ((n₂ : ℝ) ^ 2 * (d₁ : ℝ)) ≤
            Real.sqrt ((n₁ : ℝ) ^ 2 * (d₂ : ℝ)) :=
          Real.sqrt_le_sqrt (by nlinarith)
        rw [habs₁, habs₂, abs_of_nonneg hn₁R] at hmono
        calc (n₂ : ℝ) * Real.sqrt (d₁ : ℝ)
            ≤ |(n₂ : ℝ)| * Real.sqrt (d₁ : ℝ) :=
              mul_le_mul_of_nonneg_right (le_abs_self _) hs₁.le
          _ ≤ (n₁ : ℝ) * Real.sqrt (d₂ : ℝ) := hmono
    · intro h
      by_cases hn₂ : n₂ < (0 : ℚ)
      · exact Or.inl hn₂
      · push_neg at hn₂
        have hn₂R : (0 : ℝ) ≤ (n₂ : ℝ) := by exact_mod_cast hn₂
        right
        have hsqle := mul_self_le_mul_self (mul_nonneg hn₂R hs₁.le) h
        have : (n₂ : ℝ) * (n₂ : ℝ) * (d₁ : ℝ) ≤
            (n₁ : ℝ) * (n₁ : ℝ) * (d₂ : ℝ) := by nlinarith
        exact_mod_cast this
  · push_neg at hn₁
    have hn₁R : (n₁ : ℝ) < 0 := by exact_mod_cast hn₁
    simp only [if_neg (not_le.mpr hn₁), Bool.and_eq_true, decide_eq_true_eq]
    constructor
    · rintro ⟨hn₂, hsq⟩
      have hn₂R : (n₂ : ℝ) < 0 := by exact_mod_cast hn₂
      have hsqR : (n₁ : ℝ) * (n₁ : ℝ) * (d₂ : ℝ) ≤
          (n₂ : ℝ) * (n₂ : ℝ) * (d₁ : ℝ) := by exact_mod_cast hsq
      have hmono : Real.sqrt ((n₁ : ℝ) ^ 2 * (d₂ : ℝ)) ≤
          Real.sqrt ((n₂ : ℝ) ^ 2 * (d₁ : ℝ)) :=
        Real.sqrt_le_sqrt (by nlinarith)
      rw [habs₁, habs₂, abs_of_neg hn₁R, abs_of_neg hn₂R] at hmono
      nlinarith [hmono]
    · intro h
      have hn₂R : (n₂ : ℝ) < 0 := by
        nlinarith [mul_pos (neg_pos.mpr hn₁R) hs₂]
      have hn₂ : n₂ < (0 : ℚ) := by exact_mod_cast hn₂R
      refine ⟨hn₂, ?_⟩
      have hsqle := mul_self_le_mul_self
        (by nlinarith [mul_pos (neg_pos.mpr hn₁R) hs₂] :
          (0 : ℝ) ≤ -((n₁ : ℝ) * Real.sqrt (d₂ : ℝ)))
        (by linarith : -((n₁ : ℝ) * Real.sqrt (d₂ : ℝ)) ≤
          -((n₂ : ℝ) * Real.sqrt (d₁ : ℝ)))
      have : (n₁ : ℝ) * (n₁ : ℝ) * (d₂ : ℝ) ≤
          (n₂ : ℝ) * (n₂ : ℝ) * (d₁ : ℝ) := by nlinarith
      exact_mod_cast this

/-! ## The chunker

Source: `PrivacyDocumentProcessor.chunkDocument` with
`CHUNK_SIZE = 1000`, `OVERLAP = 200`.  The text is split on
`/\n\s*\n/` (a newline, any run of whitespace, a newline — the JavaScript
regex split, leftmost match, greedy `\s*` backtracking to the last newline
of the whitespace run); paragraphs whose trim is empty are discarded; small
paragraphs become one fragment, large ones a sliding window of width
`CHUNK_SIZE` and stride `CHUNK_SIZE - OVERLAP`.  A running cursor advances
by each paragraph's length (the source does not add the separators'
lengths, so recorded offsets drift from absolute text positions — modelled
faithfully).  The source also attaches a random `id` and the `documentId`
to every fragment; no claim depends on them, so they are not modelled. -/

/-- Index of the last `'\n'` in a list, if any. -/
def lastNewlineIdx (l : List Char) : Option Nat :=
  ((l.enum.filter fun p => p.2 = '\n').map fun p => p.1).getLast?

/-- Leftmost match of `/\n\s*\n/` anchored at the head of `s`: the match is
`'\n'`, then the greedy whitespace run backtracked to its last `'\n'`.
Returns the match length. -/
def matchBlankSep (s : List Char) : Option Nat :=
  match s with
  | c :: rest =>
      if c = '\n' then
        match lastNewlineIdx (rest.takeWhile jsIsSpace) with
        | some i => some (i + 2)
        | none => none
      else none
  | [] => none

/-- Model of `String.prototype.split(/\n\s*\n/)`, by left-to-right scan.  `fuel`
bounds the recursion; every step consumes at least one character, so
`fuel = s.length` (as passed by `splitBlank`) is always sufficient and the
fuel-exhausted row is unreachable. -/
def splitBlankAux : Nat → List Char → List Char → List (List Char)
  | 0, s, acc => [acc.reverse ++ s]
  | _ + 1, [], acc => [acc.reverse]
  | fuel + 1, c :: rest, acc =>
      match matchBlankSep (c :: rest) with
      | some len => acc.reverse :: splitBlankAux fuel ((c :: rest).drop len) []
      | none => splitBlankAux fuel rest (c :: acc)

/-- Model of `content.split(/\n\s*\n/)`. -/
def splitBlank (s : List Char) : List (List Char) :=
  splitBlankAux s.length s []

theorem matchBlankSep_pos (s : List Char) (len : Nat)
    (h : matchBlankSep s = some len) : 1 ≤ len := by
  cases s with
  | nil => cases h
  | cons c rest =>
      have h2 : (if c = '\n' then
          (match lastNewlineIdx (rest.takeWhile jsIsSpace) with
           | some i => some (i + 2)
           | none => none)
        else none) = some len := h
      by_cases hc : c = '\n'
      · rw [if_pos hc] at h2
        cases hl : lastNewlineIdx (rest.takeWhile jsIsSpace) with
        | none => rw [hl] at h2; cases h2
        | some i =>
            rw [hl] at h2
            cases h2
            omega
      · rw [if_neg hc] at h2
        cases h2

theorem splitBlankAux_fuel_succ (fuel : Nat) (s acc : List Char)
    (h : s.length ≤ fuel) :
    splitBlankAux fuel s acc = splitBlankAux (fuel + 1) s acc := by
  induction fuel generalizing s acc with
  | zero =>
      have hs : s = [] := List.eq_nil_of_length_eq_zero (Nat.le_zero.mp h)
      subst hs
      simp [splitBlankAux]
  | succ fuel ih =>
      cases s with
      | nil => rfl
      | cons c rest =>
          show (match matchBlankSep (c :: rest) with
            | some len => acc.reverse ::
                splitBlankAux fuel ((c :: rest).drop len) []
            | none => splitBlankAux fuel rest (c :: acc)) =
            (match matchBlankSep (c :: rest) with
            | some len => acc.reverse ::
                splitBlankAux (fuel + 1) ((c :: rest).drop len) []
            | none => splitBlankAux (fuel + 1) rest (c :: acc))
          cases hm : matchBlankSep (c :: rest) with
          | some len =>
              have hlen := matchBlankSep_pos _ _ hm
              have hd : ((c :: rest).drop len).length ≤ fuel := by
                rw [List.length_drop]
                simp only [List.length_cons] at h ⊢
                omega
              show acc.reverse :: splitBlankAux fuel ((c :: rest).drop len) []
                = acc.reverse :: splitBlankAux (fuel + 1) ((c :: rest).drop len) []
              rw [ih _ _ hd]
          | none =>
              have hr : rest.length ≤ fuel := by
                simp only [List.length_cons] at h
                omega
              show splitBlankAux fuel rest (c :: acc)
                = splitBlankAux (fuel + 1) rest (c :: acc)
              rw [ih _ _ hr]

/-- Adding fuel beyond `s.length` never changes the split: the fuel bound
of `splitBlank` is sufficient (each scan step consumes at least one
character). -/
theorem splitBlank_fuel_adequate (s : List Char) (k : Nat) :
    splitBlankAux (s.length + k) s [] = splitBlank s := by
  unfold splitBlank
  induction k with
  | zero => rfl
  | succ k ih =>
      rw [show s.length + (k + 1) = (s.length + k) + 1 from rfl,
        ← splitBlankAux_fuel_succ (s.length + k) s [] (Nat.le_add_right _ _),
        ih]

/-- Source constant `CHUNK_SIZE = 1000` (characters). -/
def CHUNK_SIZE : Nat := 1000

/-- Source constant `OVERLAP = 200` (character overlap between chunks). -/
def OVERLAP : Nat := 200

/-- A chunk fragment emitted by the chunker: trimmed content and the
`[startIndex, endIndex)` range recorded by the source, plus the page number
attached afterwards for PDFs. -/
structure Frag where
  content : List Char
  startIndex : Nat
  endIndex : Nat
  page : Option Nat
deriving DecidableEq, Repr

namespace PrivacyDocumentProcessor

/-- The `while (paragraphStart < paragraph.length)` loop splitting a large
paragraph into overlapping windows.  `fuel` bounds the recursion; the
stride is `CHUNK_SIZE - OVERLAP = 800 ≥ 1`, so `fuel = paragraph.length`
(as passed by `chunkDocAux`) is always sufficient. -/
def chunkWindows (cursor : Nat) (paragraph : List Char) :
    Nat → Nat → List Frag
  | 0, _ => []
  | fuel + 1, paragraphStart =>
      if paragraphStart < paragraph.length then
        let endIndex := min (paragraphStart + CHUNK_SIZE) paragraph.length
        let chunkContent := jsTrim (jsSlice paragraph paragraphStart endIndex)
        (if chunkContent.length ≠ 0 then
          [{ content := chunkContent,
             startIndex := cursor + paragraphStart,
             endIndex := cursor + endIndex,
             page := none }]
         else []) ++
          chunkWindows cursor paragraph fuel
            (paragraphStart + (CHUNK_SIZE - OVERLAP))
      else []

theorem chunkWindows_fuel_succ (cursor : Nat) (paragraph : List Char)
    (fuel pStart : Nat)
    (h : paragraph.length ≤ pStart + (CHUNK_SIZE - OVERLAP) * fuel) :
    chunkWindows cursor paragraph fuel pStart =
      chunkWindows cursor paragraph (fuel + 1) pStart := by
  induction fuel generalizing pStart with
  | zero =>
      have hn : ¬ pStart < paragraph.length := by
        simp only [Nat.mul_zero, Nat.add_zero] at h
        omega
      show ([] : List Frag) = chunkWindows cursor paragraph 1 pStart
      unfold chunkWindows
      rw [if_neg hn]
  | succ fuel ih =>
      unfold chunkWindows
      by_cases hp : pStart < paragraph.length
      · simp only [if_pos hp]
        congr 1
        apply ih
        rw [Nat.mul_succ] at h
        set M := (CHUNK_SIZE - OVERLAP) * fuel with hM
        omega
      · simp only [if_neg hp]

/-- Adding fuel beyond `paragraph.length` never changes the window loop:
the fuel bound `chunkDocAux` passes is sufficient (the stride
`CHUNK_SIZE - OVERLAP = 800` is positive). -/
theorem chunkWindows_fuel_adequate (cursor : Nat) (paragraph : List Char)
    (k : Nat) :
    chunkWindows cursor paragraph (paragraph.length + k) 0 =
      chunkWindows cursor paragraph paragraph.length 0 := by
  induction k with
  | zero => rfl
  | succ k ih =>
      have h1 : paragraph.length + k ≤
          (CHUNK_SIZE - OVERLAP) * (paragraph.length + k) :=
        Nat.le_mul_of_pos_left _ (by decide)
      have hb : paragraph.length ≤
          0 + (CHUNK_SIZE - OVERLAP) * (paragraph.length + k) := by
        set M := (CHUNK_SIZE - OVERLAP) * (paragraph.length + k) with hM
        omega
      rw [show paragraph.length + (k + 1) = (paragraph.length + k) + 1
          from rfl,
        ← chunkWindows_fuel_succ cursor paragraph (paragraph.length + k) 0 hb,
        ih]

/-- The per-paragraph loop of `chunkDocument`, threading the running
`startIndex` cursor. -/
def chunkDocAux : List (List Char) → Nat → List Frag
  | [], _ => []
  | p :: ps, cursor =>
      (if p.length ≤ CHUNK_SIZE then
        [{ content := jsTrim p,
           startIndex := cursor,
           endIndex := cursor + p.length,
           page := none }]
       else chunkWindows cursor p p.length 0) ++
        chunkDocAux ps (cursor + p.length)

/-- Model of `PrivacyDocumentProcessor.chunkDocument` (the chunking algorithm; the
final PDF page pass is `addPageNumbers` below). -/
def chunkDocument (content : List Char) : List Frag :=
  chunkDocAux ((splitBlank content).filter fun p => 0 < (jsTrim p).length) 0

/-! ### Page markers -/

/-- Model of `parseInt` on a digit string. -/
def natOfDigits (digits : List Char) : Nat :=
  digits.foldl (fun n c => 10 * n + (c.toNat - '0'.toNat)) 0

/-- The literal `"--- Page "` of the marker regex. -/
def markerLit1 : List Char := ['-', '-', '-', ' ', 'P', 'a', 'g', 'e', ' ']

/-- The literal `" ---"` of the marker regex. -/
def markerLit2 : List Char := [' ', '-', '-', '-']

/-- Match of `/--- Page (\d+) ---/` anchored at the head of `s`: the
literal `"--- Page "`, one or more digits (greedy; no backtracking can
succeed since the following literal starts with a space), then `" ---"`.
Returns (captured page number, match length). -/
def matchMarkerAt (s : List Char) : Option (Nat × Nat) :=
  if markerLit1.isPrefixOf s then
    let rest := s.drop markerLit1.length
    let digits := rest.takeWhile Char.isDigit
    if digits.length = 0 then none
    else if markerLit2.isPrefixOf (rest.drop digits.length) then
      some (natOfDigits digits,
        markerLit1.length + digits.length + markerLit2.length)
    else none
  else none

/-- Model of `content.match(/--- Page (\d+) ---/g)`: the left-to-right global scan,
returning every match's position and matched substring (after a match the
scan resumes at the match's end).  `fuel` bounds the recursion; every step
consumes at least one character, so `fuel = s.length` (as passed by
`scanMarkers`) is always sufficient. -/
def scanMarkersAux : Nat → List Char → Nat → List (Nat × List Char)
  | 0, _, _ => []
  | _ + 1, [], _ => []
  | fuel + 1, c :: rest, i =>
      match matchMarkerAt (c :: rest) with
      | some (_, len) =>
          (i, (c :: rest).take len) ::
            scanMarkersAux fuel ((c :: rest).drop len) (i + len)
      | none => scanMarkersAux fuel rest (i + 1)

/-- All `--- Page N ---` markers of `content`, as (position, matched
substring) pairs in text order. -/
def scanMarkers (content : List Char) : List (Nat × List Char) :=
  scanMarkersAux content.length content 0

theorem matchMarkerAt_pos (s : List Char) (n len : Nat)
    (h : matchMarkerAt s = some (n, len)) : 1 ≤ len := by
  simp only [matchMarkerAt] at h
  split at h
  · split at h
    · cases h
    · split at h
      · cases h
        simp only [markerLit1, markerLit2, List.length_cons, List.length_nil]
        omega
      · cases h
  · cases h

theorem scanMarkersAux_fuel_succ (fuel : Nat) (s : List Char) (i : Nat)
    (h : s.length ≤ fuel) :
    scanMarkersAux fuel s i = scanMarkersAux (fuel + 1) s i := by
  induction fuel generalizing s i with
  | zero =>
      have hs : s = [] := List.eq_nil_of_length_eq_zero (Nat.le_zero.mp h)
      subst hs
      rfl
  | succ fuel ih =>
      cases s with
      | nil => rfl
      | cons c rest =>
          cases hm : matchMarkerAt (c :: rest) with
          | some p =>
              obtain ⟨n, len⟩ := p
              have hlen := matchMarkerAt_pos _ _ _ hm
              have hd : ((c :: rest).drop len).length ≤ fuel := by
                rw [List.length_drop]
                simp only [List.length_cons] at h ⊢
                omega
              show (match matchMarkerAt (c :: rest) with
                | some (_, len) => (i, (c :: rest).take len) ::
                    scanMarkersAux fuel ((c :: rest).drop len) (i + len)
                | none => scanMarkersAux fuel rest (i + 1)) =
                (match matchMarkerAt (c :: rest) with
                | some (_, len) => (i, (c :: rest).take len) ::
                    scanMarkersAux (fuel + 1) ((c :: rest).drop len) (i + len)
                | none => scanMarkersAux (fuel + 1) rest (i + 1))
              rw [hm]
              show (i, (c :: rest).take len) ::
                  scanMarkersAux fuel ((c :: rest).drop len) (i + len) =
                (i, (c :: rest).take len) ::
                  scanMarkersAux (fuel + 1) ((c :: rest).drop len) (i + len)
              rw [ih _ _ hd]
          | none =>
              have hr : rest.length ≤ fuel := by
                simp only [List.length_cons] at h
                omega
              show (match matchMarkerAt (c :: rest) with
                | some (_, len) => (i, (c :: rest).take len) ::
                    scanMarkersAux fuel ((c :: rest).drop len) (i + len)
                | none => scanMarkersAux fuel rest (i + 1)) =
                (match matchMarkerAt (c :: rest) with
                | some (_, len) => (i, (c :: rest).take len) ::
                    scanMarkersAux (fuel + 1) ((c :: rest).drop len) (i + len)
                | none => scanMarkersAux (fuel + 1) rest (i + 1))
              rw [hm]
              show scanMarkersAux fuel rest (i + 1) =
                scanMarkersAux (fuel + 1) rest (i + 1)
              rw [ih _ _ hr]

/-- Adding fuel beyond `content.length` never changes the marker scan: the
fuel bound of `scanMarkers` is sufficient (each scan step consumes at
least one character). -/
theorem scanMarkers_fuel_adequate (content : List Char) (k : Nat) :
    scanMarkersAux (content.length + k) content 0 = scanMarkers content := by
  unfold scanMarkers
  induction k with
  | zero => rfl
  | succ k ih =>
      rw [show content.length + (k + 1) = (content.length + k) + 1 from rfl,
        ← scanMarkersAux_fuel_succ _ _ _ (Nat.le_add_right _ _), ih]

/-- Model of `marker.match(/--- Page (\d+) ---/)` followed by `parseInt` on the
capture: the page number re-parsed from a matched marker string. -/
def parseMarkerPage (marker : List Char) : Option Nat :=
  (matchMarkerAt marker).map (·.1)

/-- Model of `PrivacyDocumentProcessor.addPageNumbers`.  The source collects
`{page, index}` records (page from re-matching the marker string, index
from `content.indexOf(marker)` — the *first* occurrence of that string),
then gives each chunk the page of the last record whose index is at or
before the chunk's `startIndex`, scanning the records backwards, default
page 1.  The `filterMap` mirrors the source's `if (pageMatch)` guard; the
`jsIndexOf` arm cannot be `none` because the marker was matched inside
`content`. -/
def addPageNumbers (chunks : List Frag) (content : List Char) : List Frag :=
  let pageMarkers := (scanMarkers content).map (·.2)
  let pageStarts : List (Nat × Nat) :=
    pageMarkers.filterMap fun marker =>
      match parseMarkerPage marker, jsIndexOf content marker with
      | some pageNum, some index => some (pageNum, index)
      | _, _ => none
  chunks.map fun chunk =>
    let page :=
      match pageStarts.reverse.find? (fun ps => chunk.startIndex ≥ ps.2) with
      | some ps => ps.1
      | none => 1
    { chunk with page := some page }

/-- The chunking pipeline for a PDF document: chunk, then assign page
numbers (`chunkDocument` applies `addPageNumbers` when
`document.type === 'pdf'`). -/
def chunkPdfDocument (content : List Char) : List Frag :=
  addPageNumbers (chunkDocument content) content

end PrivacyDocumentProcessor

/-- The claim C4's rule, stated in the specification's words: the page
number of the last page marker whose position in the text is at or before
`start`, defaulting to page 1 before the first marker.  Marker occurrences
and their page numbers are those of the global regex scan. -/
def lastMarkerPageAtOrBefore (content : List Char) (start : Nat) : Nat :=
  let occs : List (Nat × Nat) :=
    (PrivacyDocumentProcessor.scanMarkers content).filterMap fun pm =>
      (PrivacyDocumentProcessor.parseMarkerPage pm.2).map fun n => (pm.1, n)
  match (occs.filter fun q => q.1 ≤ start).getLast? with
  | some q => q.2
  | none => 1

/-! ## Storage and vector search

Source: `PrivacyStorageService` (IndexedDB-backed).  Object stores are
modelled as lists; IndexedDB keys (`id`) are unique in the real store, but
no claim below needs that assumption. -/

/-- A stored chunk row (the `chunks` object store).  `embedding` is always
an array in the store (`chunk.embedding || []` at save time); the
pass-through `metadata` field is not modelled (no claim reads it). -/
structure StoredChunk where
  id : String
  documentId : String
  content : String
  startIndex : Nat
  endIndex : Nat
  page : Option Nat
  embedding : List ℚ
deriving DecidableEq, Repr

/-- A stored document row, reduced to the fields the claims read (`id` for
deletion, `name` for source attribution). -/
structure StoredDocument where
  id : String
  name : String
deriving DecidableEq, Repr

/-- A document source attached to an assistant chat message. -/
structure DocumentSource where
  documentId : String
  documentName : String
  chunkId : String
  content : String
  page : Option Nat
  relevanceScore : SimVal
deriving DecidableEq, Repr

/-- A chat message (`role` is `"user"` or `"assistant"`; timestamps are not
modelled). -/
structure ChatMessage where
  id : String
  content : String
  role : String
  sources : Option (List DocumentSource)
deriving DecidableEq, Repr

/-- The persistent state: the `documents`, `chunks` and `chat_history`
object stores. -/
structure StorageState where
  documents : List StoredDocument
  chunks : List StoredChunk
  chatHistory : List ChatMessage
deriving DecidableEq, Repr

/-- Stable insertion sort (`a` is inserted before the first element it must
strictly precede, hence after all equal keys — the stability JavaScript's
`Array.prototype.sort` guarantees).  The claims below rely only on the
sort being a permutation (`mem_sortBy`). -/
def insertBy {α : Type} (r : α → α → Bool) (a : α) : List α → List α
  | [] => [a]
  | b :: bs => if r a b then a :: b :: bs else b :: insertBy r a bs

/-- See `insertBy`. -/
def sortBy {α : Type} (r : α → α → Bool) : List α → List α
  | [] => []
  | a :: as => insertBy r a (sortBy r as)

namespace PrivacyStorageService

/-- Model of `PrivacyStorageService.searchChunks`: score every stored chunk with a
nonempty embedding against the query, keep those with
`similarity >= threshold`, sort descending by similarity
(`sort((a, b) => b.similarity - a.similarity)`, here the stable sort with
the strict descending comparator `!(b ≥ a)`), truncate to `topK`, return
the chunks.  The source copies each chunk's fields into the result record;
the copy is field-identical, so the chunk value itself is kept. -/
def searchChunks (queryEmbedding : List ℚ) (topK : Nat) (threshold : ℚ)
    (allChunks : List StoredChunk) : List StoredChunk :=
  let similarities :=
    (((allChunks.filter fun chunk => 0 < chunk.embedding.length).map
      fun chunk => (chunk, cosineSimilarity queryEmbedding chunk.embedding)).filter
      fun result => result.2.geq threshold)
  let sorted := sortBy (fun a b => !(SimVal.gele b.2 a.2)) similarities
  (sorted.take topK).map (·.1)

/-- Model of `PrivacyStorageService.deleteDocument`: delete the document row keyed
`id`, then every chunk row returned by the `by-document` index for `id`
(each deleted by its own chunk key). -/
def deleteDocument (id : String) (st : StorageState) : StorageState :=
  let docChunks := st.chunks.filter fun c => c.documentId = id
  { st with
    documents := st.documents.filter fun d => !(d.id = id : Bool),
    chunks := st.chunks.filter fun c =>
      !((docChunks.map (·.id)).contains c.id) }

end PrivacyStorageService

namespace PrivacyRAGService

/-- Model of `PrivacyRAGService.searchDocuments`, reduced to the returned chunk
list: fetch `topK * 2` candidates from storage at the relaxed threshold
`threshold * 0.8`, filter by the caller's `documentIds` allow-list when it
is non-empty, then keep the first `topK`.  The query string's embedding is
the `queryEmbedding` parameter (the external embedding collaborator); the
returned relevance statistics (`maxRelevanceScore`,
`averageRelevanceScore`, `totalResults`) are not modelled — no claim
depends on them. -/
def searchDocumentsChunks (queryEmbedding : List ℚ) (topK : Nat)
    (threshold : ℚ) (documentIds : Option (List String))
    (allChunks : List StoredChunk) : List StoredChunk :=
  let chunks := PrivacyStorageService.searchChunks queryEmbedding (topK * 2)
    (threshold * (4 / 5 : ℚ)) allChunks
  let chunks :=
    match documentIds with
    | some ids =>
        if 0 < ids.length then
          chunks.filter fun chunk => ids.contains (StoredChunk.documentId chunk)
        else chunks
    | none => chunks
  chunks.take topK

end PrivacyRAGService

/-! ## The embedding worker pool

Source: the embedding stage of `PrivacyRAGService.processDocument`: a
shared queue `[...document.chunks]` drained by
`Math.min(CONCURRENCY_LIMIT, totalChunks)` workers, each looping
`chunk = queue.shift(); chunk.embedding = await embed(chunk.content)`.
The host runtime is single-threaded and cooperative, so `queue.shift()` is
atomic and the queue is popped in FIFO order no matter which worker
performs the pop; one `poolStep` is one worker loop iteration (pop +
embed + store), and a schedule is the interleaving chosen by the runtime —
its entries (which worker acted) do not influence the step's effect. -/

/-- A chunk flowing through the embedding pipeline. -/
structure EChunk where
  content : String
  embedding : Option (List ℚ)
deriving DecidableEq, Repr

/-- Source constant `CONCURRENCY_LIMIT = 5`. -/
def CONCURRENCY_LIMIT : Nat := 5

/-- Model of `Array(Math.min(CONCURRENCY_LIMIT, totalChunks)).fill(null).map(...)`:
the number of workers started. -/
def workersStarted (totalChunks : Nat) : Nat :=
  min CONCURRENCY_LIMIT totalChunks

/-- The pool's shared state: the remaining queue and the chunks already
embedded (in completion order, which under FIFO popping is queue order). -/
structure PoolState where
  queue : List EChunk
  done : List EChunk
deriving DecidableEq, Repr

/-- One worker loop iteration: pop the queue's head, embed it, store the
embedding (a no-op when the queue is already empty — the worker's `while`
loop exits). -/
def poolStep (embed : String → List ℚ) (s : PoolState) : PoolState :=
  match s.queue with
  | [] => s
  | c :: rest =>
      { queue := rest,
        done := s.done ++ [{ c with embedding := some (embed c.content) }] }

/-- Run the pool under a schedule: each entry is the worker the runtime
resumes next; the worker's identity does not influence the step. -/
def runPool (embed : String → List ℚ) (schedule : List Nat)
    (s : PoolState) : PoolState :=
  schedule.foldl (fun st _ => poolStep embed st) s

/-- The embedding stage with a fallible embedding collaborator: chunks are
embedded in FIFO queue order and the first failure aborts the stage with
the triggering error (`Promise.all` rejects with the first worker
rejection). -/
def embedChunksSeq (embed : String → Except String (List ℚ)) :
    List EChunk → Except String (List EChunk)
  | [] => .ok []
  | c :: rest =>
      match embed c.content with
      | .error e => .error e
      | .ok v =>
          (embedChunksSeq embed rest).map
            (fun tail => { c with embedding := some v } :: tail)

/-! ## The RAG orchestrator -/

/-- A document in the ingestion pipeline, reduced to the fields the claims
read. -/
structure RAGDoc where
  id : String
  name : String
  chunks : List EChunk
deriving DecidableEq, Repr

/-- The orchestrator-visible world: the documents saved to storage and the
progress stages emitted so far (messages and percentages are not
modelled). -/
structure RAGState where
  saved : List RAGDoc
  events : List String
deriving DecidableEq, Repr

namespace PrivacyRAGService

/-- Model of `PrivacyRAGService.processDocument` from the embedding stage onward:
emit `uploading` then (after the extraction/chunking collaborator produced
`doc`) `embedding`; embed all chunks; on failure the `catch` emits `error`
and re-raises without saving; on success emit `indexing`, save the document
(the last step), and emit `complete`.  Extraction and chunking are the
`documentProcessor` collaborator, modelled by the already-chunked `doc`
parameter; its internal progress events are not modelled. -/
def processDocument (embed : String → Except String (List ℚ))
    (doc : RAGDoc) (st : RAGState) : Except String RAGDoc × RAGState :=
  let st1 := { st with events := st.events ++ ["uploading", "embedding"] }
  match embedChunksSeq embed doc.chunks with
  | .error e =>
      (.error e, { st1 with events := st1.events ++ ["error"] })
  | .ok embedded =>
      let doc2 := { doc with chunks := embedded }
      (.ok doc2,
        { saved := st1.saved ++ [doc2],
          events := st1.events ++ ["indexing", "complete"] })

/-- The document name resolved for a chunk's source attribution:
`(await storageService.getDocument(chunk.documentId))?.name`, with the
source's `|| 'Unknown Document'` fallback — by JavaScript truthiness an
empty name also falls back (the source caches lookups in a `Map` per
call; the cache is semantically transparent). -/
def docNameFor (st : StorageState) (documentId : String) : String :=
  match st.documents.find? fun d => d.id = documentId with
  | some d => if d.name.length ≠ 0 then d.name else "Unknown Document"
  | none => "Unknown Document"

/-- One `Source i (docName[, Page p]):\n<content>\n` block of the
generation context (`chunk.page ? ... : ''` — JavaScript truthiness, so a
missing page *or page 0* omits the suffix). -/
def sourceBlock (i : Nat) (docName : String) (page : Option Nat)
    (content : String) : String :=
  "\nSource " ++ toString (i + 1) ++ " (" ++ docName ++
    (match page with
     | some p => if p ≠ 0 then ", Page " ++ toString p else ""
     | none => "") ++ "):\n" ++ content ++ "\n"

/-- The context string built over the ranked result chunks. -/
def buildContext (st : StorageState) (chunks : List StoredChunk) : String :=
  String.join ((chunks.enum).map fun p =>
    sourceBlock p.1 (docNameFor st p.2.documentId) p.2.page p.2.content)

/-- Model of `chunk.content.slice(0, 200) + (chunk.content.length > 200 ? '...' : '')`. -/
def sourceExcerpt (content : String) : String :=
  if 200 < content.length then content.take 200 ++ "..." else content

/-- The sources array: each entry re-embeds the question (a fresh
`generateEmbedding` call per source, which can itself fail) and scores the
chunk's embedding against it.  The source's `chunk.embedding ? ... : 0`
undefined-guard cannot fire here because stored embeddings are always
arrays. -/
def buildSources (embed : String → Except String (List ℚ))
    (userQuestion : String) (st : StorageState)
    (chunks : List StoredChunk) : Except String (List DocumentSource) :=
  chunks.mapM fun chunk => do
    let qe2 ← embed userQuestion
    pure
      { documentId := chunk.documentId,
        documentName := docNameFor st chunk.documentId,
        chunkId := chunk.id,
        content := sourceExcerpt chunk.content,
        page := chunk.page,
        relevanceScore := calculateSimilarity qe2 chunk.embedding }

/-- The `try` block of `PrivacyRAGService.generateResponse`: embed the
question, search (topK = `maxSources`, threshold 0.6), build context and
sources, generate, assemble the assistant message, persist it.  Any
collaborator failure surfaces as `Except.error` — the un-caught
continuation; the store is written only by the final save, so an error
leaves the store untouched.  `msgId` stands for the `generateId()` result. -/
def generateResponseTry (embed : String → Except String (List ℚ))
    (gen : String → String → Except String String)
    (userQuestion : String) (msgId : String) (maxSources : Nat)
    (documentIds : Option (List String)) (st : StorageState) :
    Except String (ChatMessage × StorageState) := do
  let queryEmbedding ← embed userQuestion
  let chunks := searchDocumentsChunks queryEmbedding maxSources (3 / 5 : ℚ)
    documentIds st.chunks
  let context := buildContext st chunks
  let sources ← buildSources embed userQuestion st chunks
  let responseText ← gen userQuestion context
  let message : ChatMessage :=
    { id := msgId,
      content := responseText,
      role := "assistant",
      sources := if 0 < sources.length then some sources else none }
  pure (message, { st with chatHistory := st.chatHistory ++ [message] })

/-- The apology text of the `catch` branch of `generateResponse`. -/
def apologyText (e : String) : String :=
  "I apologize, but I encountered an error while processing your question: "
    ++ e ++ ". Please try again."

/-- Model of `PrivacyRAGService.generateResponse`: the `try` block, with the `catch`
branch that converts any failure into an assistant-role apology message,
persists it like any other message, and returns it normally (nothing is
re-thrown; the function's totality is the no-throw guarantee). -/
def generateResponse (embed : String → Except String (List ℚ))
    (gen : String → String → Except String String)
    (userQuestion : String) (msgId : String) (maxSources : Nat)
    (documentIds : Option (List String)) (st : StorageState) :
    ChatMessage × StorageState :=
  match generateResponseTry embed gen userQuestion msgId maxSources
      documentIds st with
  | .ok r => r
  | .error e =>
      let errorMessage : ChatMessage :=
        { id := msgId,
          content := apologyText e,
          role := "assistant",
          sources := none }
      (errorMessage, { st with chatHistory := st.chatHistory ++ [errorMessage] })

/-- Model of `PrivacyRAGService.chat`: persist the user message, then delegate to
`generateResponse` (maxSources defaults to 5).  `userMsgId` and `msgId`
stand for the two `generateId()` results. -/
def chat (embed : String → Except String (List ℚ))
    (gen : String → String → Except String String)
    (userMessage : String) (userMsgId msgId : String)
    (documentIds : Option (List String)) (st : StorageState) :
    ChatMessage × StorageState :=
  let userChatMessage : ChatMessage :=
    { id := userMsgId, content := userMessage, role := "user", sources := none }
  let st1 := { st with chatHistory := st.chatHistory ++ [userChatMessage] }
  generateResponse embed gen userMessage msgId 5 documentIds st1

end PrivacyRAGService

/-! ## Supporting lemmas -/

theorem mem_insertBy {α : Type} (r : α → α → Bool) (a x : α) (l : List α) :
    x ∈ insertBy r a l ↔ x ∈ l ∨ x = a := by
  induction l with
  | nil => simp [insertBy]
  | cons b bs ih =>
      unfold insertBy
      by_cases h : r a b
      · simp only [if_pos h, List.mem_cons]
        tauto
      · simp only [if_neg h, List.mem_cons, ih]
        tauto

theorem mem_sortBy {α : Type} (r : α → α → Bool) (x : α) (l : List α) :
    x ∈ sortBy r l ↔ x ∈ l := by
  induction l with
  | nil => simp [sortBy]
  | cons a as ih =>
      unfold sortBy
      rw [mem_insertBy, ih, List.mem_cons]
      tauto

namespace PrivacyStorageService

theorem searchChunks_length_le (queryEmbedding : List ℚ) (topK : Nat)
    (threshold : ℚ) (allChunks : List StoredChunk) :
    (searchChunks queryEmbedding topK threshold allChunks).length ≤ topK := by
  unfold searchChunks
  simp only [List.length_map]
  exact (List.length_take_le _ _)

theorem searchChunks_mem (queryEmbedding : List ℚ) (topK : Nat)
    (threshold : ℚ) (allChunks : List StoredChunk) (c : StoredChunk)
    (hc : c ∈ searchChunks queryEmbedding topK threshold allChunks) :
    c ∈ allChunks ∧ 0 < c.embedding.length ∧
      (cosineSimilarity queryEmbedding c.embedding).geq threshold = true := by
  unfold searchChunks at hc
  obtain ⟨p, hp, hpc⟩ := List.mem_map.mp hc
  have hp2 : p ∈ sortBy (fun a b => !(SimVal.gele b.2 a.2)) _ :=
    List.take_subset _ _ hp
  rw [mem_sortBy] at hp2
  obtain ⟨hpmem, hgeq⟩ := List.mem_filter.mp hp2
  obtain ⟨chunk, hchunk, hpeq⟩ := List.mem_map.mp hpmem
  obtain ⟨hmem, hlen⟩ := List.mem_filter.mp hchunk
  subst hpeq
  simp only at hpc
  subst hpc
  refine ⟨hmem, by simpa using hlen, ?_⟩
  simpa using hgeq

end PrivacyStorageService

namespace PrivacyRAGService

theorem searchDocumentsChunks_length_le (queryEmbedding : List ℚ)
    (topK : Nat) (threshold : ℚ) (documentIds : Option (List String))
    (allChunks : List StoredChunk) :
    (searchDocumentsChunks queryEmbedding topK threshold documentIds
      allChunks).length ≤ topK := by
  unfold searchDocumentsChunks
  exact List.length_take_le _ _

theorem searchDocumentsChunks_mem (queryEmbedding : List ℚ) (topK : Nat)
    (threshold : ℚ) (documentIds : Option (List String))
    (allChunks : List StoredChunk) (c : StoredChunk)
    (hc : c ∈ searchDocumentsChunks queryEmbedding topK threshold documentIds
      allChunks) :
    c ∈ allChunks ∧ 0 < c.embedding.length ∧
      (PrivacyStorageService.cosineSimilarity queryEmbedding c.embedding).geq
        (threshold * (4 / 5 : ℚ)) = true := by
  unfold searchDocumentsChunks at hc
  have hc2 : c ∈ PrivacyStorageService.searchChunks queryEmbedding (topK * 2)
      (threshold * (4 / 5 : ℚ)) allChunks := by
    have := List.take_subset topK _ hc
    cases documentIds with
    | none => exact this
    | some ids =>
        by_cases h : 0 < ids.length
        · simp only [h, if_pos] at this
          exact (List.mem_filter.mp this).1
        · simpa [h] using this
  exact PrivacyStorageService.searchChunks_mem _ _ _ _ _ hc2

end PrivacyRAGService

namespace PrivacyDocumentProcessor

theorem chunkWindows_mem_start (cursor : Nat) (para : List Char)
    (fuel pStart : Nat) (c : Frag)
    (hc : c ∈ chunkWindows cursor para fuel pStart) :
    cursor + pStart ≤ c.startIndex ∧ c.startIndex < cursor + para.length := by
  induction fuel generalizing pStart with
  | zero => simp [chunkWindows] at hc
  | succ fuel ih =>
      unfold chunkWindows at hc
      by_cases h : pStart < para.length
      · rw [if_pos h] at hc
        rcases List.mem_append.mp hc with hhd | htl
        · by_cases hne :
            (jsTrim (jsSlice para pStart
              (min (pStart + CHUNK_SIZE) para.length))).length ≠ 0
          · rw [if_pos hne, List.mem_singleton] at hhd
            subst hhd
            exact ⟨Nat.le_refl _, Nat.add_lt_add_left h cursor⟩
          · rw [if_neg hne] at hhd
            simp at hhd
        · obtain ⟨h1, h2⟩ := ih _ htl
          exact ⟨le_trans (by omega) h1, h2⟩
      · rw [if_neg h] at hc
        simp at hc

theorem chunkWindows_pairwise (cursor : Nat) (para : List Char)
    (fuel pStart : Nat) :
    (chunkWindows cursor para fuel pStart).Pairwise
      fun a b => a.startIndex < b.startIndex := by
  induction fuel generalizing pStart with
  | zero => simp [chunkWindows]
  | succ fuel ih =>
      unfold chunkWindows
      by_cases h : pStart < para.length
      · rw [if_pos h]
        rw [List.pairwise_append]
        refine ⟨?_, ih _, ?_⟩
        · by_cases hne :
            (jsTrim (jsSlice para pStart
              (min (pStart + CHUNK_SIZE) para.length))).length ≠ 0
          · rw [if_pos hne]
            simp
          · rw [if_neg hne]
            simp
        · intro a ha b hb
          have hb2 := (chunkWindows_mem_start cursor para fuel
            (pStart + (CHUNK_SIZE - OVERLAP)) b hb).1
          have ha2 : a.startIndex = cursor + pStart := by
            by_cases hne :
              (jsTrim (jsSlice para pStart
                (min (pStart + CHUNK_SIZE) para.length))).length ≠ 0
            · rw [if_pos hne, List.mem_singleton] at ha
              subst ha
              rfl
            · rw [if_neg hne] at ha
              simp at ha
          rw [ha2]
          have : (0 : Nat) < CHUNK_SIZE - OVERLAP := by decide
          omega
      · rw [if_neg h]
        simp

theorem chunkWindows_content_le (cursor : Nat) (para : List Char)
    (fuel pStart : Nat) (c : Frag)
    (hc : c ∈ chunkWindows cursor para fuel pStart) :
    c.content.length ≤ CHUNK_SIZE := by
  induction fuel generalizing pStart with
  | zero => simp [chunkWindows] at hc
  | succ fuel ih =>
      unfold chunkWindows at hc
      by_cases h : pStart < para.length
      · rw [if_pos h] at hc
        rcases List.mem_append.mp hc with hhd | htl
        · by_cases hne :
            (jsTrim (jsSlice para pStart
              (min (pStart + CHUNK_SIZE) para.length))).length ≠ 0
          · rw [if_pos hne, List.mem_singleton] at hhd
            subst hhd
            calc (jsTrim (jsSlice para pStart
                  (min (pStart + CHUNK_SIZE) para.length))).length
                ≤ (jsSlice para pStart
                  (min (pStart + CHUNK_SIZE) para.length)).length :=
                  jsTrim_length_le _
              _ ≤ min (pStart + CHUNK_SIZE) para.length - pStart :=
                  jsSlice_length_le _ _ _
              _ ≤ CHUNK_SIZE := by omega
          · rw [if_neg hne] at hhd
            simp at hhd
        · exact ih _ htl
      · rw [if_neg h] at hc
        simp at hc

theorem chunkDocAux_mem_start (ps : List (List Char)) (cursor : Nat)
    (c : Frag) (hc : c ∈ chunkDocAux ps cursor) : cursor ≤ c.startIndex := by
  induction ps generalizing cursor with
  | nil => simp [chunkDocAux] at hc
  | cons p ps ih =>
      unfold chunkDocAux at hc
      rcases List.mem_append.mp hc with hhd | htl
      · by_cases h : p.length ≤ CHUNK_SIZE
        · rw [if_pos h, List.mem_singleton] at hhd
          subst hhd
          exact Nat.le_refl _
        · rw [if_neg h] at hhd
          have := (chunkWindows_mem_start cursor p p.length 0 c hhd).1
          omega
      · have := ih (cursor + p.length) htl
        omega

theorem chunkDocAux_pairwise (ps : List (List Char)) (cursor : Nat)
    (hps : ∀ p ∈ ps, 0 < (jsTrim p).length) :
    (chunkDocAux ps cursor).Pairwise
      fun a b => a.startIndex < b.startIndex := by
  induction ps generalizing cursor with
  | nil => simp [chunkDocAux]
  | cons p ps ih =>
      unfold chunkDocAux
      rw [List.pairwise_append]
      have hplen : 0 < p.length :=
        lt_of_lt_of_le (hps p (List.mem_cons_self p ps)) (jsTrim_length_le p)
      refine ⟨?_, ih _ fun q hq => hps q (List.mem_cons_of_mem p hq), ?_⟩
      · by_cases h : p.length ≤ CHUNK_SIZE
        · rw [if_pos h]
          simp
        · rw [if_neg h]
          exact chunkWindows_pairwise cursor p p.length 0
      · intro a ha b hb
        have hb2 : cursor + p.length ≤ b.startIndex :=
          chunkDocAux_mem_start ps (cursor + p.length) b hb
        have ha2 : a.startIndex < cursor + p.length := by
          by_cases h : p.length ≤ CHUNK_SIZE
          · rw [if_pos h, List.mem_singleton] at ha
            subst ha
            show cursor < cursor + p.length
            omega
          · rw [if_neg h] at ha
            exact (chunkWindows_mem_start cursor p p.length 0 a ha).2
        omega

theorem chunkDocument_pairwise_start (content : List Char) :
    (chunkDocument content).Pairwise
      fun a b => a.startIndex < b.startIndex := by
  unfold chunkDocument
  exact chunkDocAux_pairwise _ 0 fun p hp => by
    simpa using (List.mem_filter.mp hp).2

theorem chunkDocAux_content_le (ps : List (List Char)) (cursor : Nat)
    (c : Frag) (hc : c ∈ chunkDocAux ps cursor) :
    c.content.length ≤ CHUNK_SIZE := by
  induction ps generalizing cursor with
  | nil => simp [chunkDocAux] at hc
  | cons p ps ih =>
      unfold chunkDocAux at hc
      rcases List.mem_append.mp hc with hhd | htl
      · by_cases h : p.length ≤ CHUNK_SIZE
        · rw [if_pos h, List.mem_singleton] at hhd
          subst hhd
          exact le_trans (jsTrim_length_le p) h
        · rw [if_neg h] at hhd
          exact chunkWindows_content_le _ p p.length 0 c hhd
      · exact ih _ htl

theorem chunkDocument_content_le (content : List Char) (c : Frag)
    (hc : c ∈ chunkDocument content) : c.content.length ≤ CHUNK_SIZE :=
  chunkDocAux_content_le _ 0 c hc

end PrivacyDocumentProcessor

/-- Searching a reversed list finds the last satisfying element: the
source's backwards `for`-loop with `break` over `pageStarts` is the
`getLast?` of the filtered list. -/
theorem find?_reverse_eq_getLast?_filter {α : Type} (p : α → Bool)
    (l : List α) : l.reverse.find? p = (l.filter p).getLast? := by
  induction l with
  | nil => rfl
  | cons a l ih =>
      rw [List.reverse_cons, List.find?_append, ih, List.filter_cons]
      by_cases h : p a
      · simp only [if_pos h]
        rw [List.getLast?_cons]
        cases hfl : (l.filter p).getLast? with
        | none => simp [List.find?, h]
        | some x => simp [List.find?, h]
      · simp only [if_neg h]
        have hnone : List.find? p [a] = none := by simp [List.find?, h]
        rw [hnone, Option.or_none]

namespace PrivacyDocumentProcessor

/-- When every matched marker string first occurs in the text at the very
position where the global scan matched it (so `content.indexOf(marker)`
recovers the marker's position), `addPageNumbers` implements exactly the
rule of `lastMarkerPageAtOrBefore`. -/
theorem addPageNumbers_page_eq (content : List Char) (chunks : List Frag)
    (H : ∀ pm ∈ scanMarkers content, jsIndexOf content pm.2 = some pm.1)
    (c : Frag) (hc : c ∈ addPageNumbers chunks content) :
    c.page = some (lastMarkerPageAtOrBefore content c.startIndex) := by
  unfold addPageNumbers at hc
  obtain ⟨ch, hch, hc2⟩ := List.mem_map.mp hc
  subst hc2
  simp only
  have hstarts :
      (((scanMarkers content).map (·.2)).filterMap fun marker =>
        match parseMarkerPage marker, jsIndexOf content marker with
        | some pageNum, some index => some (pageNum, index)
        | _, _ => none) =
      ((scanMarkers content).filterMap fun pm =>
        (parseMarkerPage pm.2).map fun n => (pm.1, n)).map Prod.swap := by
    rw [List.filterMap_map, List.map_filterMap]
    apply List.filterMap_congr
    intro pm hpm
    rw [Function.comp_apply, H pm hpm]
    cases parseMarkerPage pm.2 with
    | none => rfl
    | some n => rfl
  rw [hstarts]
  rw [← List.map_reverse, List.find?_map]
  have hp : ((fun ps : Nat × Nat => decide (ch.startIndex ≥ ps.2)) ∘
      (Prod.swap : Nat × Nat → Nat × Nat)) =
      fun q : Nat × Nat => decide (q.1 ≤ ch.startIndex) := rfl
  rw [hp, find?_reverse_eq_getLast?_filter]
  unfold lastMarkerPageAtOrBefore
  simp only
  cases hlast :
      ((((scanMarkers content).filterMap fun pm =>
        (parseMarkerPage pm.2).map fun n => (pm.1, n)).filter
          fun q => decide (q.1 ≤ ch.startIndex)).getLast?) with
  | none => rfl
  | some q => rfl

end PrivacyDocumentProcessor

/-! ### Worker-pool and orchestrator lemmas -/

theorem runPool_done (embed : String → List ℚ) (schedule : List Nat)
    (s : PoolState) (h : (runPool embed schedule s).queue = []) :
    (runPool embed schedule s).done =
      s.done ++ s.queue.map fun c =>
        { c with embedding := some (embed c.content) } := by
  induction schedule generalizing s with
  | nil =>
      simp only [runPool, List.foldl_nil] at h ⊢
      rw [h]
      simp
  | cons x sch ih =>
      have hstep : runPool embed (x :: sch) s = runPool embed sch
          (poolStep embed s) := by
        simp [runPool]
      rw [hstep] at h ⊢
      cases hq : s.queue with
      | nil =>
          have hid : poolStep embed s = s := by
            unfold poolStep
            rw [hq]
          rw [hid] at h ⊢
          have hres := ih s h
          rw [hq] at hres
          exact hres
      | cons c rest =>
          have hid : poolStep embed s =
              { queue := rest,
                done := s.done ++
                  [{ c with embedding := some (embed c.content) }] } := by
            unfold poolStep
            rw [hq]
          rw [hid] at h ⊢
          rw [ih _ h]
          simp

theorem embedChunksSeq_error (embed : String → Except String (List ℚ))
    (chunks : List EChunk)
    (h : ∃ c ∈ chunks, ∃ e, embed c.content = Except.error e) :
    ∃ e2, embedChunksSeq embed chunks = Except.error e2 := by
  induction chunks with
  | nil =>
      obtain ⟨c, hc, _⟩ := h
      simp at hc
  | cons c rest ih =>
      cases he : embed c.content with
      | error e =>
          refine ⟨e, ?_⟩
          unfold embedChunksSeq
          rw [he]
      | ok v =>
          obtain ⟨c2, hc2, e, he2⟩ := h
          rcases List.mem_cons.mp hc2 with rfl | hmem
          · rw [he] at he2
            cases he2
          · obtain ⟨e2, htail⟩ := ih ⟨c2, hmem, e, he2⟩
            refine ⟨e2, ?_⟩
            unfold embedChunksSeq
            rw [he, htail]
            rfl

/-! ## Concrete instances used by witnesses and counterexamples -/

/-- A stored chunk whose embedding `[3, 4]` scores `3/5 = 0.6` against the
query `[1, 0]`: above `0.8 × 0.7 = 0.56`, below `0.7`. -/
def exampleChunk34 : StoredChunk :=
  { id := "c1", documentId := "d1", content := "alpha", startIndex := 0,
    endIndex := 5, page := none, embedding := [3, 4] }

/-- A stored chunk whose embedding dimensionality (2) differs from the
1-dimensional queries used in the C10 witness. -/
def mismatchChunk : StoredChunk :=
  { id := "m1", documentId := "dm", content := "mism", startIndex := 0,
    endIndex := 4, page := none, embedding := [1, 1] }

/-- A text that is one 1001-character paragraph, forcing the sliding-window
branch of the chunker. -/
def overlongText : List Char := List.replicate 1001 'a'

/-- A PDF-shaped text in which page 1's body quotes a `--- Page 9 ---`
header and a real page 9 follows later (pages 3–8 were blank, so
extraction skipped them). -/
def c4text : List Char :=
  ("--- Page 1 ---\nA --- Page 9 --- B\n\n--- Page 2 ---\nC\n\n" ++
    "--- Page 9 ---\nD").toList

/-- A well-behaved 2-page PDF-shaped text. -/
def twoPageText : List Char :=
  ("--- Page 1 ---\nA\n\n--- Page 2 ---\nB").toList

/-- The first chunk produced from `twoPageText`. -/
def twoPageChunk1 : Frag :=
  { content := ("--- Page 1 ---\nA").toList, startIndex := 0, endIndex := 16,
    page := some 1 }

/-- Three unembedded chunks for the worker-pool witness. -/
def exampleChunks3 : List EChunk :=
  [{ content := "one", embedding := none },
   { content := "two", embedding := none },
   { content := "three", embedding := none }]

/-- An embedding collaborator whose model is not loaded: every call
fails. -/
def failEmbed : String → Except String (List ℚ) :=
  fun _ => Except.error "Embedding model not loaded"

/-- An embedding collaborator that always succeeds. -/
def okEmbed : String → Except String (List ℚ) :=
  fun _ => Except.ok [1]

/-- A generation collaborator whose model is not loaded: every call
fails. -/
def failGen : String → String → Except String String :=
  fun _ _ => Except.error "Model not loaded"

/-- A one-chunk document for the ingestion-failure witness. -/
def failDoc : RAGDoc :=
  { id := "doc1", name := "a.txt", chunks := [{ content := "text", embedding := none }] }

/-- A stored chunk belonging to document `d1`. -/
def exampleChunkD1 : StoredChunk :=
  { id := "k1", documentId := "d1", content := "from doc one",
    startIndex := 0, endIndex := 12, page := none, embedding := [1] }

/-- A stored chunk belonging to document `d2`. -/
def exampleChunkD2 : StoredChunk :=
  { id := "k2", documentId := "d2", content := "from doc two",
    startIndex := 0, endIndex := 12, page := none, embedding := [1] }

/-- A two-document store for the deletion witness. -/
def exampleStore : StorageState :=
  { documents := [{ id := "d1", name := "Doc One" },
                  { id := "d2", name := "Doc Two" }],
    chunks := [exampleChunkD1, exampleChunkD2],
    chatHistory := [] }

/-! ## The claims -/

/-- C1, as stated, is false: `searchDocuments` fetches candidates from
storage at the relaxed threshold `threshold * 0.8` and never re-filters at
the caller's threshold, so a chunk scoring in `[0.8·threshold, threshold)`
is returned.  Concretely, with query `[1, 0]`, threshold `0.7` and a chunk
embedding `[3, 4]` (cosine similarity `3/√25 = 0.6`), the chunk is
returned although its similarity comparison against `0.7` is false. -/
theorem claim_C1_counterexample :
    exampleChunk34 ∈ PrivacyRAGService.searchDocumentsChunks [1, 0] 1
      (7 / 10 : ℚ) none [exampleChunk34] ∧
    (PrivacyStorageService.cosineSimilarity [1, 0]
      exampleChunk34.embedding).geq (7 / 10 : ℚ) = false := by
  constructor
  · with_unfolding_all decide
  · with_unfolding_all decide

/-- C1 (amended): for every query embedding, stored population, `topK`,
`threshold` and optional allow-list, `searchDocuments` returns at most
`topK` chunks, and every returned chunk's cosine similarity to the query
embedding is at least `0.8 × threshold` (the relaxed candidate threshold
the storage search actually applies). -/
theorem claim_C1 (queryEmbedding : List ℚ) (topK : Nat) (threshold : ℚ)
    (documentIds : Option (List String)) (population : List StoredChunk)
    (c : StoredChunk)
    (hc : c ∈ PrivacyRAGService.searchDocumentsChunks queryEmbedding topK
      threshold documentIds population) :
    (PrivacyRAGService.searchDocumentsChunks queryEmbedding topK threshold
      documentIds population).length ≤ topK ∧
    (PrivacyStorageService.cosineSimilarity queryEmbedding
      c.embedding).geq (threshold * (4 / 5 : ℚ)) = true :=
  ⟨PrivacyRAGService.searchDocumentsChunks_length_le _ _ _ _ _,
   (PrivacyRAGService.searchDocumentsChunks_mem _ _ _ _ _ _ hc).2.2⟩

/-- Witness for C1 at the counterexample's concrete inputs. -/
theorem claim_C1_witness :
    exampleChunk34 ∈ PrivacyRAGService.searchDocumentsChunks [1, 0] 1
      (7 / 10 : ℚ) none [exampleChunk34] ∧
    ((PrivacyRAGService.searchDocumentsChunks [1, 0] 1 (7 / 10 : ℚ) none
      [exampleChunk34]).length ≤ 1 ∧
     (PrivacyStorageService.cosineSimilarity [1, 0]
       exampleChunk34.embedding).geq ((7 / 10 : ℚ) * (4 / 5 : ℚ)) = true) :=
  ⟨by with_unfolding_all decide,
   claim_C1 [1, 0] 1 (7 / 10 : ℚ) none [exampleChunk34] exampleChunk34
     (by with_unfolding_all decide)⟩

/-- C2, as stated, is false: neither similarity function guards against a
zero norm — the division `0 / (sqrt 0 * sqrt 0)` is evaluated and produces
NaN, not 0.  Concretely, on the all-zero vectors `[0]` and `[0]` the
function returns NaN. -/
theorem claim_C2_counterexample :
    PrivacyStorageService.cosineSimilarity [(0 : ℚ)] [(0 : ℚ)] =
      SimVal.nan ∧
    PrivacyRAGService.calculateSimilarity [(0 : ℚ)] [(0 : ℚ)] =
      SimVal.nan ∧
    SimVal.nan ≠ SimVal.score 0 1 := by
  refine ⟨by with_unfolding_all decide, by with_unfolding_all decide, by with_unfolding_all decide⟩

/-- C2 (amended): for every pair of equal-length vectors where either
vector has zero norm, both similarity functions return NaN (the division
is `0 / 0`); the result is never the number 0. -/
theorem claim_C2 (a b : List ℚ) (hlen : a.length = b.length)
    (h : sumSquares a = 0 ∨ sumSquares b = 0) :
    PrivacyStorageService.cosineSimilarity a b = SimVal.nan ∧
    PrivacyRAGService.calculateSimilarity a b = SimVal.nan := by
  have hprod : sumSquares a * sumSquares b = 0 := by
    rcases h with h | h <;> rw [h] <;> ring
  have h1 : PrivacyStorageService.cosineSimilarity a b = SimVal.nan := by
    unfold PrivacyStorageService.cosineSimilarity
    rw [if_neg (not_ne_iff.mpr hlen)]
    simp only [hprod, if_pos]
  refine ⟨h1, ?_⟩
  rw [PrivacyRAGService.calculateSimilarity_eq_cosineSimilarity]
  exact h1

/-- Witness for C2 at the all-zero vectors `[0]`, `[0]`. -/
theorem claim_C2_witness :
    (([(0 : ℚ)] : List ℚ).length = ([(0 : ℚ)] : List ℚ).length) ∧
    (sumSquares [(0 : ℚ)] = 0 ∨ sumSquares [(0 : ℚ)] = 0) ∧
    (PrivacyStorageService.cosineSimilarity [(0 : ℚ)] [(0 : ℚ)] =
        SimVal.nan ∧
      PrivacyRAGService.calculateSimilarity [(0 : ℚ)] [(0 : ℚ)] =
        SimVal.nan) :=
  ⟨rfl, Or.inl (by with_unfolding_all decide), claim_C2 [0] [0] rfl (Or.inl (by with_unfolding_all decide))⟩

/-- C3, as stated, is false: fragments produced from a paragraph longer
than `CHUNK_SIZE` overlap their predecessor by `OVERLAP` characters (that
is the design), so the ranges are not pairwise non-overlapping and the
concatenation repeats the overlapped text (hence is not a subsequence of
the input).  Concretely, a 1001-character paragraph yields the ranges
`[0, 1000)` and `[800, 1001)`. -/
theorem claim_C3_counterexample :
    ¬ (PrivacyDocumentProcessor.chunkDocument overlongText).Pairwise
        (fun a b => a.endIndex ≤ b.startIndex) := by
  intro hpair
  have h : PrivacyDocumentProcessor.chunkDocument overlongText =
      [{ content := List.replicate 1000 'a', startIndex := 0,
         endIndex := 1000, page := none },
       { content := List.replicate 201 'a', startIndex := 800,
         endIndex := 1001, page := none }] := by
    set_option maxRecDepth 100000 in decide
  rw [h] at hpair
  rcases List.pairwise_cons.mp hpair with ⟨hfirst, _⟩
  have hle := hfirst _ (List.mem_singleton_self _)
  simp at hle

/-- C3 (amended): for every input text the chunker's fragments are sorted
ascending — their `startIndex` values are strictly increasing — but
consecutive fragments of an oversized paragraph may overlap (by up to
`OVERLAP` characters), so the ranges are not pairwise disjoint and
concatenation can repeat text. -/
theorem claim_C3 (content : List Char) :
    (PrivacyDocumentProcessor.chunkDocument content).Pairwise
      fun a b => a.startIndex < b.startIndex :=
  PrivacyDocumentProcessor.chunkDocument_pairwise_start content

/-- C5: with the configured `CHUNK_SIZE = 1000` and `OVERLAP = 200`
(satisfying `OVERLAP < CHUNK_SIZE`), every fragment the chunker emits has
content length at most `CHUNK_SIZE`. -/
theorem claim_C5 (content : List Char) (c : Frag)
    (hc : c ∈ PrivacyDocumentProcessor.chunkDocument content) :
    OVERLAP < CHUNK_SIZE ∧ c.content.length ≤ CHUNK_SIZE :=
  ⟨by with_unfolding_all decide, PrivacyDocumentProcessor.chunkDocument_content_le content c hc⟩

/-- Witness for C5 on the two-character text `"ab"`. -/
theorem claim_C5_witness :
    ({ content := ['a', 'b'], startIndex := 0, endIndex := 2,
       page := none } : Frag) ∈
      PrivacyDocumentProcessor.chunkDocument ['a', 'b'] ∧
    (OVERLAP < CHUNK_SIZE ∧
      ({ content := ['a', 'b'], startIndex := 0, endIndex := 2,
         page := none } : Frag).content.length ≤ CHUNK_SIZE) :=
  ⟨by with_unfolding_all decide, claim_C5 ['a', 'b'] _ (by with_unfolding_all decide)⟩

/-- C10: when the two vectors' lengths differ, both similarity functions
return the plain number 0 (`score 0 1` denotes `0 / sqrt 1 = 0`) without
any error; consequently such a chunk fails every positive threshold
comparison and is silently excluded from `searchChunks` results. -/
theorem claim_C10 (queryEmbedding : List ℚ) (c : StoredChunk) (t : ℚ)
    (topK : Nat) (population : List StoredChunk)
    (hlen : queryEmbedding.length ≠ c.embedding.length) (ht : 0 < t) :
    PrivacyStorageService.cosineSimilarity queryEmbedding c.embedding =
      SimVal.score 0 1 ∧
    PrivacyRAGService.calculateSimilarity queryEmbedding c.embedding =
      SimVal.score 0 1 ∧
    (PrivacyStorageService.cosineSimilarity queryEmbedding
      c.embedding).geq t = false ∧
    c ∉ PrivacyStorageService.searchChunks queryEmbedding topK t
      population := by
  have h0 : PrivacyStorageService.cosineSimilarity queryEmbedding
      c.embedding = SimVal.score 0 1 := by
    unfold PrivacyStorageService.cosineSimilarity
    rw [if_pos hlen]
  have hgeq : (SimVal.score (0 : ℚ) 1).geq t = false := by
    have hne : ¬ (t * t * 1 ≤ (0 : ℚ) * 0) := by nlinarith
    show (if 0 ≤ t then decide ((0 : ℚ) ≤ 0) && decide (t * t * 1 ≤ 0 * 0)
      else decide ((0 : ℚ) ≤ 0) || decide ((0 : ℚ) * 0 ≤ t * t * 1)) = false
    rw [if_pos ht.le, decide_eq_false hne, Bool.and_false]
  refine ⟨h0, ?_, ?_, ?_⟩
  · rw [PrivacyRAGService.calculateSimilarity_eq_cosineSimilarity]
    exact h0
  · rw [h0]
    exact hgeq
  · intro hmem
    have hsim :=
      (PrivacyStorageService.searchChunks_mem _ _ _ _ _ hmem).2.2
    rw [h0, hgeq] at hsim
    cases hsim

/-- Witness for C10: a 2-dimensional chunk embedding against a
1-dimensional query, threshold `1/2`. -/
theorem claim_C10_witness :
    (([(1 : ℚ)] : List ℚ).length ≠ mismatchChunk.embedding.length) ∧
    (0 < (1 / 2 : ℚ)) ∧
    (PrivacyStorageService.cosineSimilarity [(1 : ℚ)]
        mismatchChunk.embedding = SimVal.score 0 1 ∧
      PrivacyRAGService.calculateSimilarity [(1 : ℚ)]
        mismatchChunk.embedding = SimVal.score 0 1 ∧
      (PrivacyStorageService.cosineSimilarity [(1 : ℚ)]
        mismatchChunk.embedding).geq (1 / 2 : ℚ) = false ∧
      mismatchChunk ∉ PrivacyStorageService.searchChunks [(1 : ℚ)] 5
        (1 / 2 : ℚ) [mismatchChunk]) :=
  ⟨by with_unfolding_all decide, by norm_num,
   claim_C10 [1] mismatchChunk (1 / 2 : ℚ) 5 [mismatchChunk] (by with_unfolding_all decide)
     (by norm_num)⟩

/-- C4, as stated, is false: the source records each marker's
`content.indexOf(marker)` — the *first* occurrence of the marker string —
so when the same marker string occurs twice (as in `c4text`, a
PDF-producible text whose page-1 body quotes a `--- Page 9 ---` header),
a later chunk is assigned the quoted page instead of the page of the last
marker at or before its `startIndex`.  Concretely, the chunk at
`startIndex = 49` is assigned page 9, while the last marker at or before
position 49 is the `--- Page 2 ---` one. -/
theorem claim_C4_counterexample :
    (PrivacyDocumentProcessor.chunkPdfDocument c4text).map
      (fun c => (c.startIndex, c.page)) =
      [(0, some 1), (33, some 9), (49, some 9)] ∧
    lastMarkerPageAtOrBefore c4text 49 = 2 := by
  refine ⟨by with_unfolding_all decide, by with_unfolding_all decide⟩

/-- C4 (amended): provided each matched marker string first occurs in the
text at the very position where the global scan matched it (true whenever
no marker text is duplicated inside page content — in particular for any
text whose page numbers are pairwise distinct and not quoted in the body),
every chunk of the PDF chunking pipeline is assigned the page number of
the last page marker whose position is at or before the chunk's
`startIndex`, and chunks before the first marker default to page 1 (the
rule `lastMarkerPageAtOrBefore`). -/
theorem claim_C4 (content : List Char)
    (H : ∀ pm ∈ PrivacyDocumentProcessor.scanMarkers content,
      jsIndexOf content pm.2 = some pm.1)
    (c : Frag) (hc : c ∈ PrivacyDocumentProcessor.chunkPdfDocument content) :
    c.page = some (lastMarkerPageAtOrBefore content c.startIndex) :=
  PrivacyDocumentProcessor.addPageNumbers_page_eq content _ H c hc

/-- Witness for C4 on the 2-page text. -/
theorem claim_C4_witness :
    (∀ pm ∈ PrivacyDocumentProcessor.scanMarkers twoPageText,
      jsIndexOf twoPageText pm.2 = some pm.1) ∧
    twoPageChunk1 ∈ PrivacyDocumentProcessor.chunkPdfDocument twoPageText ∧
    twoPageChunk1.page =
      some (lastMarkerPageAtOrBefore twoPageText twoPageChunk1.startIndex) :=
  ⟨by with_unfolding_all decide, by with_unfolding_all decide,
   claim_C4 twoPageText (by with_unfolding_all decide) twoPageChunk1
     (by with_unfolding_all decide)⟩

/-- C6: the embedding stage starts `min(CONCURRENCY_LIMIT, #chunks)`
workers over one shared FIFO queue, and whenever the pool runs to
completion (the queue is drained) — under any schedule, hence for any
worker count — every chunk ends up embedded, in queue order. -/
theorem claim_C6 (chunks : List EChunk) (embed : String → List ℚ)
    (schedule : List Nat)
    (h : (runPool embed schedule { queue := chunks, done := [] }).queue = []) :
    workersStarted chunks.length = min CONCURRENCY_LIMIT chunks.length ∧
    (runPool embed schedule { queue := chunks, done := [] }).done =
      chunks.map fun c => { c with embedding := some (embed c.content) } := by
  refine ⟨rfl, ?_⟩
  have hdone := runPool_done embed schedule _ h
  simpa using hdone

/-- Witness for C6: three chunks, five workers' worth of schedule steps. -/
theorem claim_C6_witness :
    (runPool (fun _ => [(1 : ℚ)]) [0, 1, 2, 3, 4]
      { queue := exampleChunks3, done := [] }).queue = [] ∧
    (workersStarted exampleChunks3.length =
        min CONCURRENCY_LIMIT exampleChunks3.length ∧
      (runPool (fun _ => [(1 : ℚ)]) [0, 1, 2, 3, 4]
        { queue := exampleChunks3, done := [] }).done =
        exampleChunks3.map fun c =>
          { c with embedding := some [(1 : ℚ)] }) :=
  ⟨by with_unfolding_all decide,
   claim_C6 exampleChunks3 (fun _ => [(1 : ℚ)]) [0, 1, 2, 3, 4]
     (by with_unfolding_all decide)⟩

/-- C7: if embedding any chunk fails, the whole ingestion aborts: the
result is the triggering error (re-raised to the caller), an `error`
progress event is emitted, and the document is not saved — the store is
untouched, because persistence is the last step of the pipeline. -/
theorem claim_C7 (embed : String → Except String (List ℚ)) (doc : RAGDoc)
    (st : RAGState)
    (h : ∃ c ∈ doc.chunks, ∃ e, embed c.content = Except.error e) :
    (∃ e2, (PrivacyRAGService.processDocument embed doc st).1 =
      Except.error e2) ∧
    (PrivacyRAGService.processDocument embed doc st).2.saved = st.saved ∧
    "error" ∈ (PrivacyRAGService.processDocument embed doc st).2.events := by
  obtain ⟨e2, herr⟩ := embedChunksSeq_error embed doc.chunks h
  unfold PrivacyRAGService.processDocument
  rw [herr]
  refine ⟨⟨e2, rfl⟩, rfl, ?_⟩
  simp

/-- Witness for C7: a one-chunk document whose embedding collaborator
fails. -/
theorem claim_C7_witness :
    (∃ c ∈ failDoc.chunks, ∃ e,
      failEmbed c.content = Except.error e) ∧
    ((∃ e2, (PrivacyRAGService.processDocument failEmbed failDoc
        { saved := [], events := [] }).1 = Except.error e2) ∧
      (PrivacyRAGService.processDocument failEmbed failDoc
        { saved := [], events := [] }).2.saved = [] ∧
      "error" ∈ (PrivacyRAGService.processDocument failEmbed failDoc
        { saved := [], events := [] }).2.events) :=
  ⟨⟨{ content := "text", embedding := none },
    List.mem_singleton_self _, "Embedding model not loaded", rfl⟩,
   claim_C7 failEmbed failDoc { saved := [], events := [] }
     ⟨{ content := "text", embedding := none },
      List.mem_singleton_self _, "Embedding model not loaded", rfl⟩⟩

/-- C8: after `deleteDocument id`, no chunk with that `documentId` remains
in the chunk store, so a subsequent search over the full population never
returns a chunk of the deleted document. -/
theorem claim_C8 (st : StorageState) (id : String)
    (queryEmbedding : List ℚ) (topK : Nat) (threshold : ℚ)
    (c : StoredChunk)
    (hc : c ∈ PrivacyStorageService.searchChunks queryEmbedding topK
      threshold (PrivacyStorageService.deleteDocument id st).chunks) :
    c.documentId ≠ id := by
  have hmem := (PrivacyStorageService.searchChunks_mem _ _ _ _ _ hc).1
  simp only [PrivacyStorageService.deleteDocument] at hmem
  obtain ⟨hmem2, hfil⟩ := List.mem_filter.mp hmem
  intro heq
  have hin : c.id ∈ (st.chunks.filter fun c2 =>
      (c2.documentId = id : Bool)).map (·.id) :=
    List.mem_map.mpr ⟨c, List.mem_filter.mpr ⟨hmem2, by simp [heq]⟩, rfl⟩
  have hcon : ((st.chunks.filter fun c2 =>
      (c2.documentId = id : Bool)).map (·.id)).contains c.id = true :=
    List.elem_iff.mpr hin
  rw [hcon] at hfil
  cases hfil

/-- Witness for C8: deleting `d1` from the two-document store, then
searching, returns only `d2`'s chunk. -/
theorem claim_C8_witness :
    exampleChunkD2 ∈ PrivacyStorageService.searchChunks [(1 : ℚ)] 5
      (1 / 2 : ℚ) (PrivacyStorageService.deleteDocument "d1"
        exampleStore).chunks ∧
    exampleChunkD2.documentId ≠ "d1" :=
  ⟨by with_unfolding_all decide,
   claim_C8 exampleStore "d1" [(1 : ℚ)] 5 (1 / 2 : ℚ) exampleChunkD2
     (by with_unfolding_all decide)⟩

/-- C9: when the answer path fails after the user message was recorded
(any failure inside `generateResponse`'s `try` block, e.g. the generation
collaborator throwing), the chat call still returns normally with an
assistant-role message whose content explains the failure, and that
message is persisted to the chat history right after the user message. -/
theorem claim_C9 (embed : String → Except String (List ℚ))
    (gen : String → String → Except String String)
    (userMessage userMsgId msgId : String)
    (documentIds : Option (List String)) (st : StorageState) (e : String)
    (h : PrivacyRAGService.generateResponseTry embed gen userMessage msgId 5
      documentIds
      { st with chatHistory := st.chatHistory ++
        [{ id := userMsgId, content := userMessage, role := "user",
           sources := none }] } = Except.error e) :
    (PrivacyRAGService.chat embed gen userMessage userMsgId msgId
      documentIds st).1.role = "assistant" ∧
    (PrivacyRAGService.chat embed gen userMessage userMsgId msgId
      documentIds st).1.content = PrivacyRAGService.apologyText e ∧
    (PrivacyRAGService.chat embed gen userMessage userMsgId msgId
      documentIds st).2.chatHistory = st.chatHistory ++
      [{ id := userMsgId, content := userMessage, role := "user",
         sources := none },
       (PrivacyRAGService.chat embed gen userMessage userMsgId msgId
         documentIds st).1] := by
  simp only [PrivacyRAGService.chat, PrivacyRAGService.generateResponse, h]
  refine ⟨trivial, trivial, ?_⟩
  simp

/-- Witness for C9: a generation collaborator that fails while embedding
and storage work. -/
theorem claim_C9_witness :
    PrivacyRAGService.generateResponseTry okEmbed failGen "q" "m1" 5 none
      { documents := [], chunks := [],
        chatHistory := [{ id := "u1", content := "q", role := "user",
                          sources := none }] } =
      Except.error "Model not loaded" ∧
    ((PrivacyRAGService.chat okEmbed failGen "q" "u1" "m1" none
        { documents := [], chunks := [], chatHistory := [] }).1.role =
        "assistant" ∧
      (PrivacyRAGService.chat okEmbed failGen "q" "u1" "m1" none
        { documents := [], chunks := [], chatHistory := [] }).1.content =
        PrivacyRAGService.apologyText "Model not loaded" ∧
      (PrivacyRAGService.chat okEmbed failGen "q" "u1" "m1" none
        { documents := [], chunks := [],
          chatHistory := [] }).2.chatHistory =
        [{ id := "u1", content := "q", role := "user", sources := none },
         (PrivacyRAGService.chat okEmbed failGen "q" "u1" "m1" none
           { documents := [], chunks := [], chatHistory := [] }).1]) :=
  ⟨by with_unfolding_all rfl,
   claim_C9 okEmbed failGen "q" "u1" "m1" none
     { documents := [], chunks := [], chatHistory := [] }
     "Model not loaded" (by with_unfolding_all rfl)⟩
